import Mathlib

/-!
Shallow embedding of the dashboard `src/app.py` (alertas-tempranas-3).

The embedded parts are:
* the text-normalization / tokenization / frequency-aggregation pipeline of
  the word-cloud tab (lines 322-356 of `src/app.py`);
* the sidebar filter stage `df_filtrado` (lines 130-137) and the heatmap
  filter `df_heatmap` with its cross-tabulation `tabla_cruzada`
  (lines 277-287);
* the derived `Año` / `Mes` columns of `cargar_datos` (lines 74-76).

Python strings are modelled as Lean `String` (a list of unicode code points,
matching Python's code-point semantics for `len`, indexing and splitting).
`pandas` missing values (`NaN` / `NaT`) are modelled as `Option.none`.
-/

namespace Alertas

/-- The ASCII punctuation characters deleted by
`texto.translate(str.maketrans("", "", string.punctuation))` (app.py line 334).
Python's `string.punctuation` is exactly the printable non-alphanumeric
non-space ASCII characters: codes 33-47, 58-64, 91-96 and 123-126. -/
def isPunct (c : Char) : Bool :=
  (33 ≤ c.toNat && c.toNat ≤ 47) || (58 ≤ c.toNat && c.toNat ≤ 64) ||
  (91 ≤ c.toNat && c.toNat ≤ 96) || (123 ≤ c.toNat && c.toNat ≤ 126)

/-- Python `str.lower()` per character, for the ASCII and Latin-1 ranges that
cover the Spanish survey text: uppercase ASCII letters and the Latin-1
uppercase letters U+00C0-U+00DE (except the multiplication sign U+00D7) map
down by 32; every other character is unchanged. -/
def pyLower (c : Char) : Char :=
  if 65 ≤ c.toNat ∧ c.toNat ≤ 90 then Char.ofNat (c.toNat + 32)
  else if 192 ≤ c.toNat ∧ c.toNat ≤ 222 ∧ c.toNat ≠ 215 then Char.ofNat (c.toNat + 32)
  else c

/-- `df_filtered[col_preg1].dropna()` : pandas `dropna` keeps every non-null
entry (an empty string is not null, hence kept). -/
def dropna (xs : List (Option String)) : List String :=
  xs.filterMap id

/-- `texto.lower()` (app.py line 333). -/
def lowerStr (s : String) : String :=
  String.mk (s.toList.map pyLower)

/-- `texto.translate(str.maketrans("", "", string.punctuation))`
(app.py line 334): delete the ASCII punctuation characters. -/
def stripPunct (s : String) : String :=
  String.mk (s.toList.filter fun c => !(isPunct c))

/-- Lines 332-334 of app.py:
`texto = " ".join(col.dropna()); texto = texto.lower();`
`texto = texto.translate(str.maketrans("", "", string.punctuation))`. -/
def normalize (xs : List (Option String)) : String :=
  stripPunct (lowerStr (String.intercalate " " (dropna xs)))

/-- Helper for Python `str.split()`: split a character list on whitespace
runs, discarding empty pieces.  `acc` holds the current (reversed) token. -/
def splitWs : List Char → List Char → List (List Char)
  | [], acc => if acc.isEmpty then [] else [acc.reverse]
  | c :: cs, acc =>
      if c.isWhitespace then
        if acc.isEmpty then splitWs cs [] else acc.reverse :: splitWs cs []
      else splitWs cs (c :: acc)

/-- `tokens = texto.split()` (app.py line 336): split on whitespace runs,
no empty tokens. -/
def tokensOf (s : String) : List String :=
  (splitWs s.toList []).map String.mk

/-- The literal stopword set of app.py lines 323-329 (`stopwords_extra`). -/
def stopwords_extra : List String :=
  ["me", "si", "hay", "porque", "suficiente", "ya", "solo", "más", "menos",
   "muy", "puede", "puedo", "fue", "soy", "estoy", "era", "esta", "ese", "eso",
   "lo", "la", "las", "los", "el", "un", "una", "uno", "unos", "unas",
   "al", "del", "de", "por", "con", "para", "sin", "sobre", "entre",
   "que", "se", "yo", "tu", "mi"]

/-- The unigram admission test of app.py line 341:
`t not in stopwords_extra and len(t) > 2`. -/
def keepUnigram (t : String) : Bool :=
  !(decide (t ∈ stopwords_extra)) && decide (2 < t.length)

/-- `palabras_filtradas` (app.py lines 339-342). -/
def palabras_filtradas (tokens : List String) : List String :=
  tokens.filter keepUnigram

/-- The bigram admission test of app.py lines 347-348:
`(w1 not in stopwords_extra or w2 not in stopwords_extra)`
`and len(w1) > 2 and len(w2) > 2`. -/
def admitBigram (w1 w2 : String) : Bool :=
  (!(decide (w1 ∈ stopwords_extra)) || !(decide (w2 ∈ stopwords_extra))) &&
    decide (2 < w1.length) && decide (2 < w2.length)

/-- `bigramas` (app.py lines 345-349): for every adjacent pair of the
ORIGINAL token stream (`zip(tokens, tokens[1:])`), keep the space-joined
phrase when `admitBigram` holds. -/
def bigramas (tokens : List String) : List String :=
  (tokens.zip tokens.tail).filterMap fun p =>
    if admitBigram p.1 p.2 then some (p.1 ++ " " ++ p.2) else none

/-- The `Counter` built at app.py lines 352-356, as the function assigning
each phrase its accumulated weight: +1 per occurrence in
`palabras_filtradas`, +2 per occurrence in `bigramas`. -/
def frecuencias (tokens : List String) (k : String) : Nat :=
  (palabras_filtradas tokens).count k + 2 * (bigramas tokens).count k

/-- The rendering guard `if not frecuencias:` at app.py line 358: the
`Counter` is nonempty iff at least one unigram or bigram was admitted;
the word cloud is rendered only in that case. -/
def nubeRenders (tokens : List String) : Bool :=
  !(palabras_filtradas tokens ++ bigramas tokens).isEmpty

/-- The full text pipeline of tab 4 applied to a reason column:
normalize, tokenize, aggregate. -/
def pipeline (xs : List (Option String)) : String → Nat :=
  frecuencias (tokensOf (normalize xs))

/-- One row of `df_filtered` as produced by `cargar_datos` (app.py
lines 64-78): subject label, parsed timestamp reduced to its derived
`(Año, Mes)` pair (`none` when `pd.to_datetime(..., errors="coerce")`
yielded `NaT`), and the two free-text reason fields (`none` = NaN). -/
structure Row where
  asignatura : String
  marcaTemporal : Option (Nat × Nat)
  preg1 : Option String
  preg2 : Option String

/-- Derived column `Año` (app.py line 75): year of the parsed timestamp,
null when the timestamp is unparseable. -/
def anio (r : Row) : Option Nat :=
  r.marcaTemporal.map Prod.fst

/-- Derived column `Mes` (app.py line 76). -/
def mes (r : Row) : Option Nat :=
  r.marcaTemporal.map Prod.snd

/-- `df_filtrado` (app.py lines 130-137): rows whose derived year and month
equal the selection; when the subject multiselect is nonempty, additionally
restrict to the selected subjects.  A pandas `NaN == value` comparison is
`False`, modelled by `none = some v` being false. -/
def df_filtrado (y m : Nat) (sel : List String) (rows : List Row) : List Row :=
  let base := rows.filter fun r => decide (anio r = some y) && decide (mes r = some m)
  if sel.isEmpty then base else base.filter fun r => decide (r.asignatura ∈ sel)

/-- `df_heatmap` (app.py lines 277-281): filtered only by the selected year
and, when nonempty, the selected subjects — the month is not applied. -/
def df_heatmap (y : Nat) (sel : List String) (rows : List Row) : List Row :=
  let base := rows.filter fun r => decide (anio r = some y)
  if sel.isEmpty then base else base.filter fun r => decide (r.asignatura ∈ sel)

/-- One cell of `pd.crosstab(df_heatmap[col_asignatura], df_heatmap[col_preg1])`
(app.py line 287): the number of heatmap rows carrying exactly this subject
label and this (non-null) primary reason. -/
def tabla_cruzada (y : Nat) (sel : List String) (rows : List Row)
    (a reason : String) : Nat :=
  (df_heatmap y sel rows).countP fun r =>
    decide (r.asignatura = a) && decide (r.preg1 = some reason)

/-- The word-cloud frequency table of tab 4 (app.py lines 322-356) as a
function of the full cached dataset and the sidebar state.  The year, month
and subject selections are parameters of the render pass but the tab-4 code
reads `df_filtered[col_preg1]` — the FULL dataset's primary-reason column —
so they do not occur in the body. -/
def tab4Freq (rows : List Row) (_y _m : Nat) (_sel : List String) : String → Nat :=
  pipeline (rows.map Row.preg1)

/-- Scenario A corpus: a single response. -/
def corpusA : List (Option String) :=
  [some "no tengo tiempo suficiente para estudiar"]

/-! ### Helper lemmas -/

/-- Every token produced by `splitWs` is free of whitespace characters,
provided the accumulator is. -/
theorem splitWs_no_ws : ∀ (cs acc : List Char),
    (∀ c ∈ acc, c.isWhitespace = false) →
    ∀ t ∈ splitWs cs acc, ∀ c ∈ t, c.isWhitespace = false := by
  intro cs
  induction cs with
  | nil =>
    intro acc hacc t ht c hc
    by_cases h : acc.isEmpty <;> simp [splitWs, h] at ht
    subst ht
    exact hacc c (List.mem_reverse.mp hc)
  | cons d ds ih =>
    intro acc hacc t ht c hc
    by_cases hd : d.isWhitespace
    · by_cases ha : acc.isEmpty <;> simp [splitWs, hd, ha] at ht
      · exact ih [] (by simp) t ht c hc
      · rcases ht with rfl | ht
        · exact hacc c (List.mem_reverse.mp hc)
        · exact ih [] (by simp) t ht c hc
    · simp only [splitWs, hd, if_neg] at ht
      refine ih (d :: acc) ?_ t (by simpa using ht) c hc
      intro e he
      rcases List.mem_cons.mp he with rfl | he
      · simpa using hd
      · exact hacc e he

/-- Tokens of `tokensOf` never contain a space: `str.split()` splits on
whitespace. -/
theorem tokensOf_no_space {s : String} {t : String} (ht : t ∈ tokensOf s) :
    ' ' ∉ t.toList := by
  rcases List.mem_map.mp ht with ⟨l, hl, rfl⟩
  intro hsp
  have := splitWs_no_ws s.toList [] (by simp) l hl ' ' hsp
  simp at this

/-- Membership in `bigramas`, unfolded. -/
theorem mem_bigramas_iff {ts : List String} {b : String} :
    b ∈ bigramas ts ↔
      ∃ w1 w2, (w1, w2) ∈ ts.zip ts.tail ∧ admitBigram w1 w2 = true ∧
        b = w1 ++ " " ++ w2 := by
  constructor
  · intro hb
    rcases List.mem_filterMap.mp hb with ⟨⟨w1, w2⟩, hmem, hf⟩
    by_cases ha : admitBigram w1 w2 <;> simp [ha] at hf
    exact ⟨w1, w2, hmem, ha, hf.symm⟩
  · rintro ⟨w1, w2, hmem, ha, rfl⟩
    exact List.mem_filterMap.mpr ⟨(w1, w2), hmem, by simp [ha]⟩

/-- The character list of a space-joined pair. -/
theorem toList_join (w1 w2 : String) :
    (w1 ++ " " ++ w2).toList = w1.toList ++ ' ' :: w2.toList := by
  show (w1.toList ++ " ".toList) ++ w2.toList = w1.toList ++ ' ' :: w2.toList
  simp

/-- Every admitted bigram contains a space. -/
theorem mem_bigramas_space {ts : List String} {b : String} (hb : b ∈ bigramas ts) :
    ' ' ∈ b.toList := by
  rcases mem_bigramas_iff.mp hb with ⟨w1, w2, -, -, rfl⟩
  simp [toList_join]

/-- Splitting a character list at its unique first space is injective. -/
theorem cons_space_inj : ∀ (l1 m1 l2 m2 : List Char), ' ' ∉ l1 → ' ' ∉ m1 →
    l1 ++ ' ' :: l2 = m1 ++ ' ' :: m2 → l1 = m1 ∧ l2 = m2 := by
  intro l1
  induction l1 with
  | nil =>
    intro m1 l2 m2 _ hm1 h
    cases m1 with
    | nil => simpa using h
    | cons d m1 =>
      simp only [List.nil_append, List.cons_append, List.cons.injEq] at h
      exact absurd (h.1 ▸ List.mem_cons_self d m1) hm1
  | cons c l1 ih =>
    intro m1 l2 m2 hl1 hm1 h
    cases m1 with
    | nil =>
      simp only [List.nil_append, List.cons_append, List.cons.injEq] at h
      exact absurd (h.1 ▸ List.mem_cons_self c l1) hl1
    | cons d m1 =>
      simp only [List.cons_append, List.cons.injEq] at h
      obtain ⟨rfl, h⟩ := h
      obtain ⟨h1, h2⟩ := ih m1 l2 m2 (fun hc => hl1 (List.mem_cons_of_mem _ hc))
        (fun hc => hm1 (List.mem_cons_of_mem _ hc)) h
      exact ⟨by rw [h1], h2⟩

/-- Space-joining is injective when the left components are space-free. -/
theorem join_inj {w1 w2 u1 u2 : String} (h1 : ' ' ∉ w1.toList)
    (h2 : ' ' ∉ u1.toList) (h : w1 ++ " " ++ w2 = u1 ++ " " ++ u2) :
    w1 = u1 ∧ w2 = u2 := by
  have h' : w1.toList ++ ' ' :: w2.toList = u1.toList ++ ' ' :: u2.toList := by
    have := congrArg String.toList h
    rwa [toList_join, toList_join] at this
  obtain ⟨e1, e2⟩ := cons_space_inj _ _ _ _ h1 h2 h'
  exact ⟨String.ext e1, String.ext e2⟩

/-- No stopword contains a space. -/
theorem stopwords_no_space : ∀ t ∈ stopwords_extra, ' ' ∉ t.toList := by
  decide

/-- A key without a space never occurs among the bigrams. -/
theorem count_bigramas_eq_zero {ts : List String} {k : String}
    (hk : ' ' ∉ k.toList) : (bigramas ts).count k = 0 :=
  List.count_eq_zero.mpr fun hmem => hk (mem_bigramas_space hmem)

/-- A key with a space never occurs among the filtered unigrams of a
whitespace-tokenized stream. -/
theorem count_palabras_spaced {s k : String} (hk : ' ' ∈ k.toList) :
    (palabras_filtradas (tokensOf s)).count k = 0 := by
  refine List.count_eq_zero.mpr fun hmem => ?_
  exact tokensOf_no_space (List.mem_of_mem_filter hmem) hk

/-! ### Claim theorems -/

/-- C1: on the single-response corpus
`["no tengo tiempo suficiente para estudiar"]`, the full core pipeline
(normalization, tokenization, unigram and bigram aggregation with the
program's stopword set and length threshold 3) produces exactly the table
`tengo:1, tiempo:1, estudiar:1, "tengo tiempo":2, "tiempo suficiente":2,
"para estudiar":2`, and no other keys. -/
theorem scenarioA_table : ∀ k : String, pipeline corpusA k =
    if k = "tengo" then 1 else if k = "tiempo" then 1
    else if k = "estudiar" then 1 else if k = "tengo tiempo" then 2
    else if k = "tiempo suficiente" then 2 else if k = "para estudiar" then 2
    else 0 := by
  intro k
  have h : pipeline corpusA k =
      List.count k ["tengo", "tiempo", "estudiar"] +
        2 * List.count k ["tengo tiempo", "tiempo suficiente", "para estudiar"] := rfl
  rw [h]
  by_cases h1 : k = "tengo"
  · subst h1; decide
  by_cases h2 : k = "tiempo"
  · subst h2; decide
  by_cases h3 : k = "estudiar"
  · subst h3; decide
  by_cases h4 : k = "tengo tiempo"
  · subst h4; decide
  by_cases h5 : k = "tiempo suficiente"
  · subst h5; decide
  by_cases h6 : k = "para estudiar"
  · subst h6; decide
  have hm1 : k ∉ (["tengo", "tiempo", "estudiar"] : List String) := by
    simp [h1, h2, h3]
  have hm2 : k ∉ (["tengo tiempo", "tiempo suficiente", "para estudiar"] : List String) := by
    simp [h4, h5, h6]
  rw [List.count_eq_zero.mpr hm1, List.count_eq_zero.mpr hm2]
  simp [h1, h2, h3, h4, h5, h6]

/-- C8: the word-cloud frequency table does not depend on the sidebar
filter state — two render passes over the same cached dataset that differ
only in the selected year, month and subject set yield identical tables,
because tab 4 reads the full dataset's primary-reason column. -/
theorem tab4Freq_filter_independent :
    ∀ (rows : List Row) (y1 m1 y2 m2 : Nat) (s1 s2 : List String),
      tab4Freq rows y1 m1 s1 = tab4Freq rows y2 m2 s2 ∧
      tab4Freq rows y1 m1 s1 = pipeline (rows.map Row.preg1) := by
  intro rows y1 m1 y2 m2 s1 s2
  exact ⟨rfl, rfl⟩

/-- C5, counterexample: an empty-string reason field is NOT excluded from
the corpus passed to normalization — `dropna` keeps it — and it DOES
contribute a join separator (a second space between `ab` and `cd`). -/
theorem dropna_keeps_empty_counterexample :
    ("" ∈ dropna [some ""]) ∧
    normalize [some "ab", some "", some "cd"] = "ab  cd" ∧
    normalize [some "ab", some "cd"] = "ab cd" := by
  refine ⟨by decide, rfl, rfl⟩

/-- C5, amended: only a missing (null) reason field is excluded from the
corpus; an empty-string field is kept and contributes a join separator,
but adds no token, so the tokenized stream is unaffected (shown on a
concrete corpus). -/
theorem dropna_amended :
    (∀ xs, dropna (none :: xs) = dropna xs) ∧
    ("" ∈ dropna [some ""]) ∧
    tokensOf (normalize [some "ab", some "", some "cd"]) =
      tokensOf (normalize [some "ab", some "cd"]) := by
  refine ⟨fun xs => rfl, by decide, rfl⟩

/-- C3: every spaceless (unigram) key of the output table has length ≥ 3
and is not a stopword; a stopword of length ≥ 3 never appears as a
standalone key, though it may appear embedded inside an admitted bigram
key (witnessed by `"suficiente"` inside `"tiempo suficiente"`). -/
theorem unigram_key_invariant :
    (∀ (ts : List String) (k : String), ' ' ∉ k.toList → frecuencias ts k ≠ 0 →
      3 ≤ k.length ∧ k ∉ stopwords_extra) ∧
    (∀ (ts : List String) (t : String), t ∈ stopwords_extra → 3 ≤ t.length →
      frecuencias ts t = 0) ∧
    (∃ l r : String, "tiempo suficiente" = l ++ "suficiente" ++ r ∧
      "suficiente" ∈ stopwords_extra ∧ pipeline corpusA "tiempo suficiente" = 2) := by
  refine ⟨?_, ?_, "tiempo ", "", by decide, by decide, rfl⟩
  · intro ts k hk h
    have hmem : k ∈ palabras_filtradas ts := by
      by_contra hmem
      rw [frecuencias, List.count_eq_zero.mpr hmem, count_bigramas_eq_zero hk] at h
      simp at h
    have := (List.mem_filter.mp hmem).2
    simp only [keepUnigram, Bool.and_eq_true, Bool.not_eq_true', decide_eq_false_iff_not,
      decide_eq_true_eq] at this
    exact ⟨by omega, this.1⟩
  · intro ts t hs hlen
    have hp : (palabras_filtradas ts).count t = 0 := by
      refine List.count_eq_zero.mpr fun hmem => ?_
      have := (List.mem_filter.mp hmem).2
      simp [keepUnigram, hs] at this
    rw [frecuencias, hp, count_bigramas_eq_zero (stopwords_no_space t hs)]

/-- Witness for C3 at concrete inputs. -/
theorem unigram_key_invariant_witness :
    (3 ≤ ("xyz" : String).length ∧ "xyz" ∉ stopwords_extra) ∧
    frecuencias ["para"] "para" = 0 :=
  ⟨unigram_key_invariant.1 ["xyz"] "xyz" (by decide) (by decide),
   unigram_key_invariant.2.1 ["para"] "para" (by decide) (by decide)⟩

/-- C9: over a whitespace-tokenized stream, a key with a space is fed only
by the bigram pass (weight `2 × occurrences`, hence even and ≥ 2 when
present) and a key without a space only by the unigram pass (weight = its
admitted occurrence count); tokens never contain spaces, so the two key
spaces cannot collide. -/
theorem key_space_separation : ∀ s k : String,
    (' ' ∈ k.toList →
      frecuencias (tokensOf s) k = 2 * (bigramas (tokensOf s)).count k) ∧
    (' ' ∉ k.toList →
      frecuencias (tokensOf s) k = (palabras_filtradas (tokensOf s)).count k) ∧
    (' ' ∈ k.toList → frecuencias (tokensOf s) k ≠ 0 →
      2 ≤ frecuencias (tokensOf s) k ∧ 2 ∣ frecuencias (tokensOf s) k) ∧
    (∀ t ∈ tokensOf s, ' ' ∉ t.toList) := by
  intro s k
  have h1 : ' ' ∈ k.toList →
      frecuencias (tokensOf s) k = 2 * (bigramas (tokensOf s)).count k := by
    intro hk
    rw [frecuencias, count_palabras_spaced hk, Nat.zero_add]
  refine ⟨h1, ?_, ?_, fun t ht => tokensOf_no_space ht⟩
  · intro hk
    rw [frecuencias, count_bigramas_eq_zero hk, Nat.mul_zero, Nat.add_zero]
  · intro hk hne
    rw [h1 hk] at hne ⊢
    exact ⟨by omega, Dvd.intro _ rfl⟩

/-- Witness for C9 at concrete inputs. -/
theorem key_space_separation_witness :
    frecuencias (tokensOf "tengo tiempo") "tengo tiempo" =
      2 * (bigramas (tokensOf "tengo tiempo")).count "tengo tiempo" ∧
    frecuencias (tokensOf "tengo tiempo") "tengo" =
      (palabras_filtradas (tokensOf "tengo tiempo")).count "tengo" ∧
    2 ≤ frecuencias (tokensOf "tengo tiempo") "tengo tiempo" ∧
    ' ' ∉ ("tengo" : String).toList :=
  ⟨(key_space_separation "tengo tiempo" "tengo tiempo").1 (by decide),
   (key_space_separation "tengo tiempo" "tengo").2.1 (by decide),
   ((key_space_separation "tengo tiempo" "tengo tiempo").2.2.1 (by decide)
     (by decide)).1,
   (key_space_separation "tengo tiempo" "tengo").2.2.2 "tengo" (by decide)⟩

/-- C6: the aggregator is total and degrades to the empty table on
degenerate input — the empty token stream yields the zero table, and a
stream made only of stopwords and short (length ≤ 2) tokens yields the
zero table, in which case the caller's `if not frecuencias:` guard skips
rendering. -/
theorem aggregator_degrades :
    (∀ k, frecuencias [] k = 0) ∧
    (∀ ts : List String, (∀ t ∈ ts, t ∈ stopwords_extra ∨ t.length ≤ 2) →
      (∀ k, frecuencias ts k = 0) ∧ nubeRenders ts = false) := by
  refine ⟨fun k => rfl, ?_⟩
  intro ts h
  have hp : palabras_filtradas ts = [] := by
    refine List.filter_eq_nil_iff.mpr fun t ht => ?_
    rcases h t ht with hs | hl
    · simp [keepUnigram, hs]
    · simp only [keepUnigram, Bool.and_eq_true, Bool.not_eq_true',
        decide_eq_false_iff_not, decide_eq_true_eq, not_and]
      intro _
      omega
  have hb : bigramas ts = [] := by
    refine List.filterMap_eq_nil_iff.mpr ?_
    rintro ⟨u1, u2⟩ hmem
    obtain ⟨h1, h2⟩ := List.of_mem_zip hmem
    have h2' : u2 ∈ ts := List.mem_of_mem_tail h2
    have ha : admitBigram u1 u2 = false := by
      rcases h u1 h1 with hs1 | hl1
      · rcases h u2 h2' with hs2 | hl2
        · simp [admitBigram, hs1, hs2]
        · have : ¬ (2 < u2.length) := by omega
          simp [admitBigram, this]
      · have : ¬ (2 < u1.length) := by omega
        simp [admitBigram, this]
    simp [ha]
  constructor
  · intro k
    rw [frecuencias, hp, hb]
    rfl
  · rw [nubeRenders, hp, hb]
    rfl

/-- Witness for C6 at a concrete degenerate corpus. -/
theorem aggregator_degrades_witness :
    frecuencias ["para", "xy"] "para" = 0 ∧ nubeRenders ["para", "xy"] = false :=
  ⟨(aggregator_degrades.2 ["para", "xy"] (by decide)).1 "para",
   (aggregator_degrades.2 ["para", "xy"] (by decide)).2⟩

/-- C2: for every adjacent pair of the original unfiltered token stream,
the space-joined candidate is admitted iff both tokens have length ≥ 3 and
at least one is not a stopword; a key with a space carries weight exactly
`2 ×` its number of admitted occurrences; a pair of two stopwords (both
length ≥ 3) never appears as a bigram key; an adjacent pair with exactly
one stopword (both length ≥ 3) does appear, with weight ≥ 2. -/
theorem bigram_admission : ∀ s : String,
    (∀ w1 w2 : String, (w1, w2) ∈ (tokensOf s).zip (tokensOf s).tail →
      ((w1 ++ " " ++ w2) ∈ bigramas (tokensOf s) ↔
        3 ≤ w1.length ∧ 3 ≤ w2.length ∧
          (w1 ∉ stopwords_extra ∨ w2 ∉ stopwords_extra))) ∧
    (∀ k : String, ' ' ∈ k.toList →
      frecuencias (tokensOf s) k = 2 * (bigramas (tokensOf s)).count k) ∧
    (∀ w1 w2 : String, w1 ∈ stopwords_extra → w2 ∈ stopwords_extra →
      3 ≤ w1.length → 3 ≤ w2.length →
      frecuencias (tokensOf s) (w1 ++ " " ++ w2) = 0) ∧
    (∀ w1 w2 : String, (w1, w2) ∈ (tokensOf s).zip (tokensOf s).tail →
      3 ≤ w1.length → 3 ≤ w2.length →
      ¬(w1 ∈ stopwords_extra ↔ w2 ∈ stopwords_extra) →
      2 ≤ frecuencias (tokensOf s) (w1 ++ " " ++ w2)) := by
  intro s
  have hmemiff : ∀ w1 w2 : String, (w1, w2) ∈ (tokensOf s).zip (tokensOf s).tail →
      ((w1 ++ " " ++ w2) ∈ bigramas (tokensOf s) ↔
        3 ≤ w1.length ∧ 3 ≤ w2.length ∧
          (w1 ∉ stopwords_extra ∨ w2 ∉ stopwords_extra)) := by
    intro w1 w2 hmem
    have hw1 : w1 ∈ tokensOf s := (List.of_mem_zip hmem).1
    constructor
    · intro hb
      rcases mem_bigramas_iff.mp hb with ⟨u1, u2, hmem', ha, hjoin⟩
      have hu1 : u1 ∈ tokensOf s := (List.of_mem_zip hmem').1
      obtain ⟨rfl, rfl⟩ := join_inj (tokensOf_no_space hw1) (tokensOf_no_space hu1) hjoin
      simp only [admitBigram, Bool.and_eq_true, Bool.or_eq_true, Bool.not_eq_true',
        decide_eq_false_iff_not, decide_eq_true_eq] at ha
      exact ⟨by omega, by omega, ha.1.1⟩
    · rintro ⟨hl1, hl2, hns⟩
      refine mem_bigramas_iff.mpr ⟨w1, w2, hmem, ?_, rfl⟩
      simp only [admitBigram, Bool.and_eq_true, Bool.or_eq_true, Bool.not_eq_true',
        decide_eq_false_iff_not, decide_eq_true_eq]
      exact ⟨⟨hns, by omega⟩, by omega⟩
  have hspaced : ∀ k : String, ' ' ∈ k.toList →
      frecuencias (tokensOf s) k = 2 * (bigramas (tokensOf s)).count k := by
    intro k hk
    rw [frecuencias, count_palabras_spaced hk, Nat.zero_add]
  refine ⟨hmemiff, hspaced, ?_, ?_⟩
  · intro w1 w2 hs1 hs2 _ _
    rw [hspaced (w1 ++ " " ++ w2) (by simp [toList_join])]
    have : (w1 ++ " " ++ w2) ∉ bigramas (tokensOf s) := by
      intro hb
      rcases mem_bigramas_iff.mp hb with ⟨u1, u2, hmem', ha, hjoin⟩
      have hu1 : u1 ∈ tokensOf s := (List.of_mem_zip hmem').1
      obtain ⟨rfl, rfl⟩ := join_inj (stopwords_no_space w1 hs1)
        (tokensOf_no_space hu1) hjoin
      simp [admitBigram, hs1, hs2] at ha
    rw [List.count_eq_zero.mpr this]
  · intro w1 w2 hmem hl1 hl2 hx
    have hone : w1 ∉ stopwords_extra ∨ w2 ∉ stopwords_extra := by tauto
    have hb : (w1 ++ " " ++ w2) ∈ bigramas (tokensOf s) :=
      (hmemiff w1 w2 hmem).mpr ⟨hl1, hl2, hone⟩
    have hc : 0 < (bigramas (tokensOf s)).count (w1 ++ " " ++ w2) :=
      List.count_pos_iff.mpr hb
    rw [hspaced (w1 ++ " " ++ w2) (by simp [toList_join])]
    omega

/-- Witness for C2 at concrete inputs. -/
theorem bigram_admission_witness :
    ("tiempo" ++ " " ++ "suficiente") ∈ bigramas (tokensOf "tiempo suficiente") ∧
    frecuencias (tokensOf "suficiente para") ("suficiente" ++ " " ++ "para") = 0 ∧
    2 ≤ frecuencias (tokensOf "tiempo suficiente")
        ("tiempo" ++ " " ++ "suficiente") :=
  ⟨((bigram_admission "tiempo suficiente").1 "tiempo" "suficiente"
      (by decide)).mpr ⟨by decide, by decide, by decide⟩,
   (bigram_admission "suficiente para").2.2.1 "suficiente" "para"
      (by decide) (by decide) (by decide) (by decide),
   (bigram_admission "tiempo suficiente").2.2.2 "tiempo" "suficiente"
      (by decide) (by decide) (by decide) (by decide)⟩

/-- C4: normalization concatenates the non-null strings with spaces,
lowercases, and deletes every ASCII punctuation character while leaving
non-ASCII characters untouched; an empty or all-null input yields the
empty string (and the function is total, so there is no error condition). -/
theorem normalize_contract :
    (normalize [] = "") ∧
    (∀ xs : List (Option String), (∀ x ∈ xs, x = none) → normalize xs = "") ∧
    (∀ (xs : List (Option String)) (c : Char), isPunct c = true →
      c ∉ (normalize xs).toList) ∧
    (∀ (xs : List (Option String)) (c : Char), 126 < c.toNat →
      List.count c (normalize xs).toList =
        List.count c ((String.intercalate " " (dropna xs)).toList.map pyLower)) := by
  refine ⟨rfl, ?_, ?_, ?_⟩
  · intro xs h
    have hdrop : dropna xs = [] :=
      List.filterMap_eq_nil_iff.mpr fun a ha => h a ha
    show stripPunct (lowerStr (String.intercalate " " (dropna xs))) = ""
    rw [hdrop]
    rfl
  · intro xs c hc hmem
    have h : (normalize xs).toList =
        ((String.intercalate " " (dropna xs)).toList.map pyLower).filter
          (fun c => !(isPunct c)) := rfl
    rw [h] at hmem
    have := (List.mem_filter.mp hmem).2
    simp [hc] at this
  · intro xs c hc
    have hpc : (!(isPunct c)) = true := by
      simp only [isPunct, Bool.not_eq_true']
      simp only [Bool.or_eq_false_iff, Bool.and_eq_false_iff,
        decide_eq_false_iff_not, Nat.not_le]
      omega
    exact List.count_filter hpc

/-- Witness for C4 at concrete inputs (`¿` is non-ASCII punctuation,
code point 191, and survives; `,` is ASCII punctuation and is deleted). -/
theorem normalize_contract_witness :
    normalize [none, none] = "" ∧
    (',' ∉ (normalize [some "a,b"]).toList) ∧
    List.count '¿' (normalize [some "¿ab?"]).toList =
      List.count '¿' ((String.intercalate " " (dropna [some "¿ab?"])).toList.map pyLower) :=
  ⟨normalize_contract.2.1 [none, none] (by decide),
   normalize_contract.2.2.1 [some "a,b"] ',' (by decide),
   normalize_contract.2.2.2 [some "¿ab?"] '¿' (by decide)⟩

/-- C7: the sidebar filter selects a row iff its derived year and month
equal the selection and (the subject set is empty or contains the row's
subject); a row with an unparseable timestamp (null derived year/month)
never matches; the result is a sublist of the source rows (a view — the
source dataset is not mutated). -/
theorem df_filtrado_spec :
    ∀ (y m : Nat) (sel : List String) (rows : List Row) (r : Row),
    (r ∈ df_filtrado y m sel rows ↔
      r ∈ rows ∧ anio r = some y ∧ mes r = some m ∧
        (sel = [] ∨ r.asignatura ∈ sel)) ∧
    (r.marcaTemporal = none → r ∉ df_filtrado y m sel rows) ∧
    (df_filtrado y m sel rows).Sublist rows := by
  intro y m sel rows r
  have hmain : r ∈ df_filtrado y m sel rows ↔
      r ∈ rows ∧ anio r = some y ∧ mes r = some m ∧
        (sel = [] ∨ r.asignatura ∈ sel) := by
    by_cases hsel : sel.isEmpty
    · obtain rfl := List.isEmpty_iff.mp hsel
      simp [df_filtrado, List.mem_filter, and_assoc]
    · have hne : sel ≠ [] := by
        intro h
        rw [h] at hsel
        simp at hsel
      simp only [df_filtrado, hsel, Bool.false_eq_true, if_false, List.mem_filter,
        Bool.and_eq_true, decide_eq_true_eq, hne, false_or]
      tauto
  refine ⟨hmain, ?_, ?_⟩
  · intro h0 hmem
    have := (hmain.mp hmem).2.1
    rw [anio, h0] at this
    simp at this
  · show (df_filtrado y m sel rows).Sublist rows
    by_cases hsel : sel.isEmpty
    · simp only [df_filtrado, hsel, if_true]
      exact List.filter_sublist rows
    · simp only [df_filtrado, hsel, Bool.false_eq_true, if_false]
      exact (List.filter_sublist _).trans (List.filter_sublist rows)

/-- Witness for C7: a matching row is selected, a null-timestamp row is
not. -/
theorem df_filtrado_spec_witness :
    ((⟨"a", some (2023, 5), some "x", none⟩ : Row) ∈
      df_filtrado 2023 5 [] [⟨"a", some (2023, 5), some "x", none⟩]) ∧
    ((⟨"a", none, some "x", none⟩ : Row) ∉
      df_filtrado 2023 5 [] [⟨"a", none, some "x", none⟩]) :=
  ⟨(df_filtrado_spec 2023 5 [] [⟨"a", some (2023, 5), some "x", none⟩]
      ⟨"a", some (2023, 5), some "x", none⟩).1.mpr
    ⟨List.mem_singleton_self _, rfl, rfl, Or.inl rfl⟩,
   (df_filtrado_spec 2023 5 [] [⟨"a", none, some "x", none⟩]
      ⟨"a", none, some "x", none⟩).2.1 rfl⟩

/-- C10: each heatmap cross-tabulation cell counts exactly the rows of the
full dataset whose derived year is the selected year, whose subject passes
the (possibly empty) subject selection, and which carry the cell's subject
and primary reason — the selected month is nowhere applied, so rows from
every month of the chosen year contribute. -/
theorem tabla_cruzada_spec :
    ∀ (y : Nat) (sel : List String) (rows : List Row) (a reason : String),
    tabla_cruzada y sel rows a reason =
      rows.countP fun r =>
        decide (anio r = some y) && (sel.isEmpty || decide (r.asignatura ∈ sel)) &&
          decide (r.asignatura = a) && decide (r.preg1 = some reason) := by
  intro y sel rows a reason
  by_cases hsel : sel.isEmpty
  · simp only [tabla_cruzada, df_heatmap, hsel, if_true, List.countP_filter,
      Bool.true_or]
    refine List.countP_congr fun r _ => ?_
    simp only [Bool.and_eq_true, decide_eq_true_eq]
    tauto
  · simp only [tabla_cruzada, df_heatmap, hsel, Bool.false_eq_true, if_false,
      List.countP_filter, Bool.false_or]
    refine List.countP_congr fun r _ => ?_
    simp only [Bool.and_eq_true, decide_eq_true_eq]
    tauto

end Alertas
